import Mathlib

/- Formal model of src/cleanup_ocr_doc.py.

   Lines and file contents are modelled as lists of characters.  The
   scanning loop of clean_architecture_doc is modelled by mainLoopF with an
   explicit fuel parameter: one unit of fuel is spent per iteration of the
   outer while loop, and every iteration consumes at least one input line,
   so a fuel of (number of remaining lines + 1) is always sufficient; this
   is proved below (mainLoopF_stable).  The Python cursor i is represented
   by the suffix of the line list that starts at position i: `i += 1`
   becomes `List.drop 1`, and `lines[i]` becomes the head of the suffix. -/

abbrev Line : Type := List Char

def strL (s : String) : List Char := s.toList

/- Python's \s whitespace class, restricted to ASCII (all inputs considered
   here are ASCII). -/
def isWs (c : Char) : Bool :=
  c == ' ' || c == '\t' || c == '\n' || c == '\r' || c == '\x0b' || c == '\x0c'

/- Substring test: Python's `p in line`. -/
def prefOf : List Char → List Char → Bool
  | [], _ => true
  | _ :: _, [] => false
  | a :: p, b :: l => a == b && prefOf p l

def infOf (p : List Char) : List Char → Bool
  | [] => prefOf p []
  | c :: l => prefOf p (c :: l) || infOf p l

/- The regular expressions in impl_patterns use only three constructs
   besides the multiline anchor ^ (handled by mlSearch): literal
   characters, \s* and .* . -/
inductive Tok
  | lit : Char → Tok
  | wsStar : Tok
  | anyStar : Tok
  deriving DecidableEq

def lits (s : String) : List Tok := (strL s).map Tok.lit

/- Backtracking matcher for a token list at a fixed position.  The fuel
   strictly exceeds (number of tokens + number of characters) at every
   call, so the given initial fuel never runs out:  the lit step lowers
   both measures, and each star step lowers one of them. -/
def toksMatchF : Nat → List Tok → List Char → Bool
  | 0, _, _ => false
  | _ + 1, [], _ => true
  | fuel + 1, Tok.lit a :: ts, cs =>
    match cs with
    | [] => false
    | c :: cs => a == c && toksMatchF fuel ts cs
  | fuel + 1, Tok.wsStar :: ts, cs =>
    toksMatchF fuel ts cs ||
      match cs with
      | [] => false
      | c :: cs => isWs c && toksMatchF fuel (Tok.wsStar :: ts) cs
  | fuel + 1, Tok.anyStar :: ts, cs =>
    toksMatchF fuel ts cs ||
      match cs with
      | [] => false
      | c :: cs => !(c == '\n') && toksMatchF fuel (Tok.anyStar :: ts) cs

def toksMatch (ts : List Tok) (cs : List Char) : Bool :=
  toksMatchF (ts.length + cs.length + 1) ts cs

/- re.search with re.MULTILINE anchors ^ at the start of the string and
   immediately after every newline. -/
def mlSearchTail (pat : List Tok) : List Char → Bool
  | [] => false
  | c :: cs => (c == '\n' && toksMatch pat cs) || mlSearchTail pat cs

def mlSearch (pat : List Tok) (s : List Char) : Bool :=
  toksMatch pat s || mlSearchTail pat s

/- impl_patterns of cleanup_ocr_doc.py, lines 22-36; each source pattern
   starts with ^\s* . -/
def impl_patterns : List (List Tok) :=
  [ Tok.wsStar :: lits "private readonly",
    Tok.wsStar :: lits "public async Task",
    Tok.wsStar :: (lits "public class" ++ [Tok.anyStar] ++ lits "Tests"),
    Tok.wsStar :: lits "[Fact]",
    Tok.wsStar :: lits "[Theory]",
    Tok.wsStar :: lits "Assert.",
    Tok.wsStar :: (lits "var " ++ [Tok.anyStar] ++ lits " = new"),
    Tok.wsStar :: lits "_logger.Log",
    Tok.wsStar :: (lits "await _" ++ [Tok.anyStar] ++ lits "."),
    Tok.wsStar :: lits "using var",
    Tok.wsStar :: (lits "try" ++ [Tok.wsStar, Tok.lit '\x7b']),
    Tok.wsStar :: (lits "catch" ++ [Tok.wsStar, Tok.lit '(']),
    Tok.wsStar :: lits "throw new" ]

def hasImplB (block_content : List Char) : Bool :=
  impl_patterns.any fun pat => mlSearch pat block_content

/- remove_classes of cleanup_ocr_doc.py, lines 39-46. -/
def remove_classes : List (List Char) :=
  [ strL "CASStorage", strL "DocumentProcessingService", strL "ReceiptMapper",
    strL "W4Mapper", strL "MapperInitializer", strL "OcrService",
    strL "CachedOcrService", strL "OcrServiceErrorHandler",
    strL "OfflineScanManager", strL "OcrProcessingErrorHandler",
    strL "CircuitBreakerOcrProxy", strL "OcrProcessingStateManager",
    strL "CameraServiceTests", strL "OCRServiceIntegrationTests",
    strL "Form1040Mapper", strL "RetryPolicyConfiguration",
    strL "ProcessingEntry", strL "CASStateRecovery",
    strL "PerformanceMonitor", strL "OCRResultCache" ]

def classPlaceholder (cls : List Char) : Line :=
  strL "// " ++ cls ++ strL ": [Implementation details removed - see source code]\n"

def implPlaceholder : Line :=
  strL "// [Implementation code removed - focus on architecture]\n"

def joinL : List Line → List Char
  | [] => []
  | l :: ls => l ++ joinL ls

/- The inner while loop (source lines 63-68): consume lines while the
   brace count stays positive; returns the remaining suffix. -/
def consume : List Line → Int → List Line
  | [], _ => []
  | l :: ls, brace_count =>
    if brace_count > 0 then
      let b1 := if infOf (strL "\x7b") l then brace_count + (l.count '\x7b' : Int) else brace_count
      let b2 := if infOf (strL "\x7d") l then b1 - (l.count '\x7d' : Int) else b1
      consume ls b2
    else l :: ls

/- The `for cls in remove_classes` loop (source lines 53-69).  `line` stays
   bound to lines[i] for the whole loop even though a match advances the
   cursor; cur is the current suffix of the line list (the lines from the
   cursor on).  On a match the placeholder is appended, the cursor moves
   one line forward, and `consume` advances it until the brace count
   returns to zero; the `continue` of line 69 continues this for loop, so
   the scan over the remaining class names goes on against the same stale
   `line`. -/
def forClasses : List (List Char) → Line → List Line → List Line → List Line × List Line
  | [], _, cur, output => (output, cur)
  | cls :: clss, line, cur, output =>
    if infOf (strL "public class " ++ cls) line then
      forClasses clss line
        (consume (cur.drop 1) (if infOf (strL "\x7b") line then 1 else 0))
        (output ++ [classPlaceholder cls])
    else
      forClasses clss line cur output

/- Source line 72: `if '```csharp' in line or '```cs' in line`. -/
def isFenceOpen (line : Line) : Bool :=
  infOf (strL "```csharp") line || infOf (strL "```cs") line

/- The outer while loop of clean_architecture_doc (source lines 49-102).
   After the for loop over remove_classes, the fence logic and the final
   append still inspect the stale `line`, while the cursor (the suffix
   r.2) may already have moved past the consumed spans; the final `i += 1`
   is the `r.2.drop 1`. -/
def mainLoopF : Nat → List Line → List Line → Bool → Int → List Line
  | 0, _, output, _, _ => output
  | _ + 1, [], output, _, _ => output
  | fuel + 1, line :: rest, output, in_code_block, code_block_start =>
    let r := forClasses remove_classes line (line :: rest) output
    if isFenceOpen line then
      mainLoopF fuel (r.2.drop 1) (r.1 ++ [line]) true (r.1.length : Int)
    else if in_code_block && infOf (strL "```") line then
      let block_content := joinL (r.1.drop (code_block_start + 1).toNat)
      if hasImplB block_content && decide ((r.1.length : Int) - code_block_start > 20) then
        mainLoopF fuel (r.2.drop 1) (r.1.take code_block_start.toNat ++ [implPlaceholder]) false code_block_start
      else
        mainLoopF fuel (r.2.drop 1) (r.1 ++ [line]) false code_block_start
    else
      mainLoopF fuel (r.2.drop 1) (r.1 ++ [line]) in_code_block code_block_start

/- The whole line-filtering pass of clean_architecture_doc on a list of
   lines: output starts empty, in_code_block False, code_block_start -1. -/
def cleanLines (lines : List Line) : List Line :=
  mainLoopF (lines.length + 1) lines [] false (-1)

/- Python readlines: split after every newline, keeping the newlines; a
   final fragment without a newline is kept if nonempty. -/
def splitLinesGo (acc : List Char) : List Char → List Line
  | [] => if acc.isEmpty then [] else [acc.reverse]
  | c :: cs =>
    if c = '\n' then (acc.reverse ++ ['\n']) :: splitLinesGo [] cs
    else splitLinesGo (c :: acc) cs

def splitLines (s : List Char) : List Line := splitLinesGo [] s

/- clean_architecture_doc as a function from file content to file content:
   readlines, filter, join. -/
def clean_architecture_doc (content : List Char) : List Char :=
  joinL (cleanLines (splitLines content))

/- The file system is a map from paths (character lists) to contents; a
   write updates one path. -/
def writeFS (fs : List Char → List Char) (p : List Char) (v : List Char) :
    List Char → List Char :=
  fun q => if q = p then v else fs q

/- main (source lines 106-121) as a file-system transformer: read the
   original, write the backup, re-read the original (clean_architecture_doc
   opens the file again), write the cleaned copy.  The console output is
   not modelled. -/
def mainRun (fs : List Char → List Char) (filepath : List Char) :
    List Char → List Char :=
  let backup := fs filepath
  let fs1 := writeFS fs (filepath ++ strL ".backup") backup
  let cleaned := clean_architecture_doc (fs1 filepath)
  writeFS fs1 (filepath ++ strL ".cleaned") cleaned

/- A line on which the for loop over remove_classes does nothing. -/
def noClassHit (l : Line) : Bool :=
  remove_classes.all fun cls => !(infOf (strL "public class " ++ cls) l)

/- A line that neither matches a class declaration nor contains a fence
   marker. -/
def plainLine (l : Line) : Bool :=
  noClassHit l && !(infOf (strL "```") l)

/- Scan of a finished document checking that no code fence in it qualifies
   for removal, mirroring the fence states of the main loop: inF is the
   in_code_block flag and acc holds the body lines of the open fence. -/
def fencesOkFrom : Bool → List Line → List Line → Bool
  | _, _, [] => true
  | inF, acc, l :: ls =>
    if isFenceOpen l then fencesOkFrom true [] ls
    else if inF && infOf (strL "```") l then
      (!(hasImplB (joinL acc) && decide (acc.length + 1 > 20))) && fencesOkFrom false [] ls
    else fencesOkFrom inF (if inF then acc ++ [l] else acc) ls

def fencesOk (ls : List Line) : Bool := fencesOkFrom false [] ls

/- Substring monotonicity: a string containing p ++ q also contains p. -/
theorem prefOf_append_left (p q : List Char) :
    ∀ l, prefOf (p ++ q) l = true → prefOf p l = true := by
  induction p with
  | nil => intro l _; rfl
  | cons a p ih =>
    intro l h
    cases l with
    | nil => simp [prefOf] at h
    | cons b l =>
      simp only [List.cons_append, prefOf, Bool.and_eq_true] at h ⊢
      exact ⟨h.1, ih l h.2⟩

theorem infOf_append_left (p q : List Char) :
    ∀ l, infOf (p ++ q) l = true → infOf p l = true := by
  intro l
  induction l with
  | nil =>
    intro h
    exact prefOf_append_left p q [] h
  | cons c l ih =>
    intro h
    simp only [infOf, Bool.or_eq_true] at h ⊢
    rcases h with h | h
    · exact Or.inl (prefOf_append_left p q _ h)
    · exact Or.inr (ih h)

/- A line without ``` cannot open a fence. -/
theorem fenceOpen_false_of_noTick (l : Line) (h : infOf (strL "```") l = false) :
    isFenceOpen l = false := by
  have e1 : strL "```csharp" = strL "```" ++ strL "csharp" := by decide
  have e2 : strL "```cs" = strL "```" ++ strL "cs" := by decide
  unfold isFenceOpen
  cases h1 : infOf (strL "```csharp") l with
  | true =>
    rw [e1] at h1
    exact absurd (infOf_append_left _ _ _ h1) (by simp [h])
  | false =>
    cases h2 : infOf (strL "```cs") l with
    | true =>
      rw [e2] at h2
      exact absurd (infOf_append_left _ _ _ h2) (by simp [h])
    | false => rfl

/- The for loop over the class list does nothing on a line that matches no
   class declaration. -/
theorem forClasses_eq_of_all_miss :
    ∀ (clss : List (List Char)) (line : Line) (cur output : List Line),
      (clss.all fun cls => !(infOf (strL "public class " ++ cls) line)) = true →
      forClasses clss line cur output = (output, cur) := by
  intro clss
  induction clss with
  | nil => intro line cur output _; rfl
  | cons cls clss ih =>
    intro line cur output h
    simp only [List.all_cons, Bool.and_eq_true, Bool.not_eq_true'] at h
    simp only [forClasses, h.1, Bool.false_eq_true, if_false]
    exact ih line cur output (by simpa using h.2)

theorem forClasses_eq_of_noClassHit (l : Line) (cur output : List Line)
    (h : noClassHit l = true) : forClasses remove_classes l cur output = (output, cur) :=
  forClasses_eq_of_all_miss remove_classes l cur output h

/- The inner brace loop never lengthens the remaining suffix. -/
theorem consume_length_le : ∀ (ls : List Line) (bc : Int), (consume ls bc).length ≤ ls.length := by
  intro ls
  induction ls with
  | nil => intro bc; simp [consume]
  | cons l ls ih =>
    intro bc
    simp only [consume]
    split
    · exact Nat.le_succ_of_le (ih _)
    · exact Nat.le_refl _

/- The class loop never lengthens the remaining suffix. -/
theorem forClasses_cur_length_le :
    ∀ (clss : List (List Char)) (line : Line) (cur output : List Line),
      (forClasses clss line cur output).2.length ≤ cur.length := by
  intro clss
  induction clss with
  | nil => intro line cur output; exact Nat.le_refl _
  | cons cls clss ih =>
    intro line cur output
    simp only [forClasses]
    split
    · have h1 := ih line (consume (cur.drop 1) (if infOf (strL "\x7b") line then 1 else 0))
        (output ++ [classPlaceholder cls])
      have h2 := consume_length_le (cur.drop 1) (if infOf (strL "\x7b") line then 1 else 0)
      have h3 : (cur.drop 1).length ≤ cur.length := by
        rw [List.length_drop]; omega
      omega
    · exact ih line cur output

/- Any fuel strictly above the number of remaining lines gives the same
   result: every iteration of the outer loop consumes at least one line. -/
theorem mainLoopF_stable_aux :
    ∀ (n f g : Nat) (ls out : List Line) (inCB : Bool) (cbs : Int),
      ls.length ≤ n → ls.length < f → ls.length < g →
      mainLoopF f ls out inCB cbs = mainLoopF g ls out inCB cbs := by
  intro n
  induction n with
  | zero =>
    intro f g ls out inCB cbs h0 hf hg
    match ls, h0 with
    | [], _ =>
      match f, hf with
      | f + 1, _ =>
        match g, hg with
        | g + 1, _ => rfl
  | succ n ih =>
    intro f g ls out inCB cbs h0 hf hg
    match ls with
    | [] =>
      match f, hf with
      | f + 1, _ =>
        match g, hg with
        | g + 1, _ => rfl
    | line :: rest =>
      obtain ⟨f, rfl⟩ : ∃ k, f = k + 1 := ⟨f - 1, by omega⟩
      obtain ⟨g, rfl⟩ : ∃ k, g = k + 1 := ⟨g - 1, by omega⟩
      simp only [List.length_cons] at h0 hf hg
      have hcur : ((forClasses remove_classes line (line :: rest) out).2.drop 1).length ≤ rest.length := by
        have h1 := forClasses_cur_length_le remove_classes line (line :: rest) out
        rw [List.length_drop]
        simp only [List.length_cons] at h1
        omega
      simp only [mainLoopF]
      split
      · exact ih f g _ _ _ _ (by omega) (by omega) (by omega)
      · split
        · split
          · exact ih f g _ _ _ _ (by omega) (by omega) (by omega)
          · exact ih f g _ _ _ _ (by omega) (by omega) (by omega)
        · exact ih f g _ _ _ _ (by omega) (by omega) (by omega)

theorem mainLoopF_stable (f : Nat) (ls out : List Line) (inCB : Bool) (cbs : Int)
    (h : ls.length < f) :
    mainLoopF f ls out inCB cbs = mainLoopF (ls.length + 1) ls out inCB cbs :=
  mainLoopF_stable_aux ls.length f (ls.length + 1) ls out inCB cbs (Nat.le_refl _) h (by omega)

/- One iteration on a plain line (no class match, no fence marker): the
   line is appended verbatim and the state is unchanged. -/
theorem step_plain (l : Line) (h : plainLine l = true) (f : Nat) (rest out : List Line)
    (inCB : Bool) (cbs : Int) :
    mainLoopF (f + 1) (l :: rest) out inCB cbs = mainLoopF f rest (out ++ [l]) inCB cbs := by
  simp only [plainLine, Bool.and_eq_true, Bool.not_eq_true'] at h
  have hO : isFenceOpen l = false := fenceOpen_false_of_noTick l h.2
  simp only [mainLoopF, forClasses_eq_of_noClassHit l (l :: rest) out h.1, hO, h.2,
    Bool.and_false, Bool.false_eq_true, if_false, List.drop_succ_cons, List.drop_zero]

/- One iteration on a fence-opening line without a class match. -/
theorem step_open (o : Line) (h1 : noClassHit o = true) (h2 : isFenceOpen o = true)
    (f : Nat) (rest out : List Line) (inCB : Bool) (cbs : Int) :
    mainLoopF (f + 1) (o :: rest) out inCB cbs =
      mainLoopF f rest (out ++ [o]) true (out.length : Int) := by
  simp only [mainLoopF, forClasses_eq_of_noClassHit o (o :: rest) out h1, h2,
    if_true, List.drop_succ_cons, List.drop_zero]

/- One iteration on a fence-closing line (contains ``` but is not a fence
   opener and matches no class) while inside a fence. -/
theorem step_close (c : Line) (h1 : noClassHit c = true) (h2 : isFenceOpen c = false)
    (h3 : infOf (strL "```") c = true) (f : Nat) (rest out : List Line) (cbs : Int) :
    mainLoopF (f + 1) (c :: rest) out true cbs =
      if hasImplB (joinL (out.drop (cbs + 1).toNat)) && decide ((out.length : Int) - cbs > 20) then
        mainLoopF f rest (out.take cbs.toNat ++ [implPlaceholder]) false cbs
      else
        mainLoopF f rest (out ++ [c]) false cbs := by
  simp only [mainLoopF, forClasses_eq_of_noClassHit c (c :: rest) out h1, h2, h3,
    Bool.true_and, Bool.false_eq_true, if_false, if_true, List.drop_succ_cons, List.drop_zero]

/- A block of plain lines passes through unchanged, one line and one unit
   of fuel per iteration. -/
theorem pass_plain :
    ∀ (p : List Line), p.all plainLine = true →
      ∀ (f : Nat) (rest out : List Line) (inCB : Bool) (cbs : Int),
        mainLoopF (p.length + f) (p ++ rest) out inCB cbs =
          mainLoopF f rest (out ++ p) inCB cbs := by
  intro p
  induction p with
  | nil => intro _ f rest out inCB cbs; simp
  | cons l p ih =>
    intro h f rest out inCB cbs
    simp only [List.all_cons, Bool.and_eq_true] at h
    have e : (l :: p).length + f = (p.length + f) + 1 := by
      simp only [List.length_cons]; omega
    rw [e, List.cons_append, step_plain l h.1, ih h.2]
    simp [List.append_assoc]

/- A trailing block of plain lines is appended and the loop ends. -/
theorem pass_plain_end (p : List Line) (h : p.all plainLine = true)
    (out : List Line) (inCB : Bool) (cbs : Int) :
    mainLoopF (p.length + 1) p out inCB cbs = out ++ p := by
  have h1 := pass_plain p h 1 [] out inCB cbs
  simpa [mainLoopF] using h1

/- Characterization of one complete code fence surrounded by plain lines:
   the block collapses to the single implementation placeholder exactly
   when some pattern matches the joined body and the body has at least 20
   lines (the source condition len(output) - code_block_start > 20 counts
   the opening marker line as well as the body). -/
theorem fence_char (pre body post : List Line) (o c : Line)
    (hpre : pre.all plainLine = true) (hbody : body.all plainLine = true)
    (hpost : post.all plainLine = true)
    (ho1 : noClassHit o = true) (ho2 : isFenceOpen o = true)
    (hc1 : noClassHit c = true) (hc2 : isFenceOpen c = false)
    (hc3 : infOf (strL "```") c = true) :
    cleanLines (pre ++ o :: (body ++ c :: post)) =
      pre ++ (if hasImplB (joinL body) && decide (20 ≤ body.length) then
        [implPlaceholder] else o :: (body ++ [c])) ++ post := by
  unfold cleanLines
  have e1 : (pre ++ o :: (body ++ c :: post)).length + 1 =
      pre.length + ((body.length + ((post.length + 1) + 1)) + 1) := by
    simp only [List.length_append, List.length_cons]; omega
  rw [e1, pass_plain pre hpre, List.nil_append, step_open o ho1 ho2,
    pass_plain body hbody, step_close c hc1 hc2 hc3]
  have ed : (((pre ++ [o]).length : Int) - 1 + 1).toNat = (pre ++ [o]).length := by omega
  have ecbs : ((pre.length : Int) + 1).toNat = (pre ++ [o]).length := by
    simp only [List.length_append, List.length_cons, List.length_nil]; omega
  have hdrop : ((pre ++ [o]) ++ body).drop ((pre.length : Int) + 1).toNat = body := by
    rw [ecbs, List.drop_left]
  have htake : ((pre ++ [o]) ++ body).take ((pre.length : Int)).toNat = pre := by
    have : ((pre.length : Int)).toNat = pre.length := by omega
    rw [this, List.append_assoc, List.take_left]
  have hcond : decide ((((pre ++ [o]) ++ body).length : Int) - (pre.length : Int) > 20) =
      decide (20 ≤ body.length) := by
    rw [decide_eq_decide]
    simp only [List.length_append, List.length_cons, List.length_nil]
    omega
  rw [hdrop, hcond, htake]
  cases hI : hasImplB (joinL body) && decide (20 ≤ body.length) with
  | true =>
    simp only [if_true]
    rw [pass_plain_end post hpost]
  | false =>
    simp only [Bool.false_eq_true, if_false]
    rw [pass_plain_end post hpost]
    simp [List.append_assoc]

/- If no line matches a class declaration and no fence in the document
   qualifies for removal, the whole pass is a verbatim copy.  The third
   hypothesis relates the loop state to the scan state of fencesOkFrom:
   while inside a fence, the output past position code_block_start + 1 is
   exactly the body accumulated so far. -/
theorem idem_aux :
    ∀ (ls : List Line) (out : List Line) (inF : Bool) (cbs : Int) (acc : List Line),
      ls.all noClassHit = true →
      fencesOkFrom inF acc ls = true →
      (inF = true → 0 ≤ cbs ∧ out.drop ((cbs + 1).toNat) = acc ∧
        (out.length : Int) = cbs + 1 + acc.length) →
      mainLoopF (ls.length + 1) ls out inF cbs = out ++ ls := by
  intro ls
  induction ls with
  | nil => intro out inF cbs acc _ _ _; simp [mainLoopF]
  | cons l ls ih =>
    intro out inF cbs acc h hF hrel
    simp only [List.all_cons, Bool.and_eq_true] at h
    have efuel : (l :: ls).length + 1 = (ls.length + 1) + 1 := by simp
    rw [efuel]
    by_cases hO : isFenceOpen l = true
    · rw [step_open l h.1 hO]
      have hF' : fencesOkFrom true [] ls = true := by
        simpa [fencesOkFrom, hO] using hF
      have hrel' : (true : Bool) = true → 0 ≤ (out.length : Int) ∧
          (out ++ [l]).drop (((out.length : Int) + 1).toNat) = ([] : List Line) ∧
          (((out ++ [l]).length : Int)) = (out.length : Int) + 1 + ([] : List Line).length := by
        intro _
        refine ⟨by omega, ?_, by simp⟩
        have e : (((out.length : Int)) + 1).toNat = (out ++ [l]).length := by
          simp only [List.length_append, List.length_cons, List.length_nil]; omega
        rw [e, List.drop_length]
      rw [ih (out ++ [l]) true (out.length : Int) [] h.2 hF' hrel']
      simp
    · have hO' : isFenceOpen l = false := by simpa using hO
      by_cases hT : infOf (strL "```") l = true
      · cases hIn : inF with
        | false =>
          subst hIn
          simp only [mainLoopF, forClasses_eq_of_noClassHit l (l :: ls) out h.1, hO',
            Bool.false_and, Bool.false_eq_true, if_false, List.drop_succ_cons, List.drop_zero]
          have hF' : fencesOkFrom false acc ls = true := by
            simpa [fencesOkFrom, hO', hT] using hF
          rw [ih (out ++ [l]) false cbs acc h.2 hF' (by intro hc; exact absurd hc (by simp))]
          simp
        | true =>
          subst hIn
          obtain ⟨hc0, hdropacc, hlen⟩ := hrel rfl
          rw [step_close l h.1 hO' hT, hdropacc]
          have hcnd : decide ((out.length : Int) - cbs > 20) = decide (acc.length + 1 > 20) := by
            rw [decide_eq_decide]; omega
          rw [hcnd]
          have hF2 : (!(hasImplB (joinL acc) && decide (acc.length + 1 > 20))) = true ∧
              fencesOkFrom false [] ls = true := by
            rw [← Bool.and_eq_true]
            simpa [fencesOkFrom, hO', hT] using hF
          have hneg : (hasImplB (joinL acc) && decide (acc.length + 1 > 20)) = false := by
            cases hx : hasImplB (joinL acc) && decide (acc.length + 1 > 20) with
            | false => rfl
            | true => rw [hx] at hF2; exact absurd hF2.1 (by decide)
          rw [hneg]
          simp only [Bool.false_eq_true, if_false]
          rw [ih (out ++ [l]) false cbs [] h.2 hF2.2 (by intro hc; exact absurd hc (by simp))]
          simp
      · have hT' : infOf (strL "```") l = false := by simpa using hT
        have hpl : plainLine l = true := by simp [plainLine, h.1, hT']
        rw [step_plain l hpl]
        have hF' : fencesOkFrom inF (if inF = true then acc ++ [l] else acc) ls = true := by
          simpa [fencesOkFrom, hO', hT'] using hF
        cases hIn : inF with
        | false =>
          subst hIn
          rw [ih (out ++ [l]) false cbs acc h.2 (by simpa using hF')
            (by intro hc; exact absurd hc (by simp))]
          simp
        | true =>
          subst hIn
          obtain ⟨hc0, hdropacc, hlen⟩ := hrel rfl
          have hle : (cbs + 1).toNat ≤ out.length := by omega
          have hrel' : (true : Bool) = true → 0 ≤ cbs ∧
              (out ++ [l]).drop ((cbs + 1).toNat) = acc ++ [l] ∧
              (((out ++ [l]).length : Int)) = cbs + 1 + (acc ++ [l]).length := by
            intro _
            refine ⟨hc0, ?_, ?_⟩
            · rw [List.drop_append_of_le_length hle, hdropacc]
            · simp only [List.length_append, List.length_cons, List.length_nil]
              push_cast
              omega
          rw [ih (out ++ [l]) true cbs (acc ++ [l]) h.2 (by simpa using hF') hrel']
          simp

/- Concrete inputs exercising the class-removal branch. -/
def c1doc : List Line :=
  [strL "public class OcrService \x7b\n", strL "    int x;\n", strL "\x7d\n"]

/-- Claim C1, evaluated on a brace-balanced class span: the filter emits the
placeholder but then also appends the declaration line itself to the output
(the `continue` of source line 69 binds to the for loop, so control falls
through to the final append with the stale line), contradicting the claim
that no line of the span appears in the output. -/
theorem c1_declaration_line_leaks :
    cleanLines c1doc =
      [classPlaceholder (strL "OcrService"), strL "public class OcrService \x7b\n"] := by
  decide

def c2doc : List Line :=
  [strL "public class ReceiptMapper \x7b\n", strL "\x7d\n", strL "AFTER\n", strL "LAST\n"]

/-- Claim C2, evaluated on a document where a plain line immediately follows
a removed class span: the line AFTER is dropped from the output (the final
`i += 1` of the iteration that handled the declaration line skips it), so a
line that matches no class declaration and is outside every fence is not
reproduced. -/
theorem c2_line_after_span_dropped :
    cleanLines c2doc =
      [classPlaceholder (strL "ReceiptMapper"), strL "public class ReceiptMapper \x7b\n",
        strL "LAST\n"] := by
  decide

def c5doc : List Line :=
  [strL "public class OcrServiceErrorHandler \x7b\n", strL "a\n", strL "\x7d\n",
    strL "b\n", strL "\x7d\n", strL "tail\n"]

/-- Claim C5, evaluated on a declaration line that contains the token
sequences of two removal-set names (OcrService is a prefix of
OcrServiceErrorHandler): the for loop fires once per matching name, so two
placeholders are emitted and two spans are consumed, not one. -/
theorem c5_every_match_fires :
    cleanLines c5doc =
      [classPlaceholder (strL "OcrService"),
        classPlaceholder (strL "OcrServiceErrorHandler"),
        strL "public class OcrServiceErrorHandler \x7b\n"] := by
  decide

def c6doc : List Line := [strL "public class CASStorage\n", strL "next\n"]

/-- Claim C6, evaluated on a declaration line without an opening brace: the
brace counter starts at 0 and no body is consumed, but the declaration line
is appended after the placeholder and the following line `next` is dropped,
so the lines after the declaration are not all processed normally. -/
theorem c6_next_line_dropped_no_brace :
    cleanLines c6doc =
      [classPlaceholder (strL "CASStorage"), strL "public class CASStorage\n"] := by
  decide

/-- Claim C9: the filtering pass terminates on every finite document — the
fuelled loop is insensitive to any extra fuel beyond (number of lines + 1),
because every iteration of the outer scan strictly advances the cursor and
the inner brace-consumption loop only ever advances it further.  Hence the
pass always runs to completion within lines.length iterations. -/
theorem c9_fuel_irrelevant_beyond_length :
    ∀ (f : Nat) (ls out : List Line) (inCB : Bool) (cbs : Int),
      mainLoopF (ls.length + 1 + f) ls out inCB cbs =
        mainLoopF (ls.length + 1) ls out inCB cbs :=
  fun f ls out inCB cbs => mainLoopF_stable (ls.length + 1 + f) ls out inCB cbs (by omega)

/-- Claim C10: the fence-open test of source line 72 is equivalent to a bare
substring test for "```cs", because "```csharp" contains "```cs"; in
particular a line tagged "```css" also opens a recognized fence. -/
theorem c10_fence_open_is_cs_substring :
    (∀ l : Line, isFenceOpen l = infOf (strL "```cs") l) ∧
      isFenceOpen (strL "```css\n") = true := by
  constructor
  · intro l
    unfold isFenceOpen
    cases h : infOf (strL "```cs") l with
    | false =>
      have e : strL "```csharp" = strL "```cs" ++ strL "harp" := by decide
      cases h2 : infOf (strL "```csharp") l with
      | false => simp
      | true =>
        rw [e] at h2
        exact absurd (infOf_append_left _ _ _ h2) (by simp [h])
    | true => simp [h]
  · decide

def c3body : List Line :=
  List.replicate 19 (strL "x\n") ++ [strL "    throw new Exception();\n"]

def c3doc : List Line := strL "```csharp\n" :: (c3body ++ [strL "```\n"])

/-- Claim C3, refuted at a fence with exactly 20 body lines, one of which
matches the throw-new pattern: the body has at most 20 lines, yet the whole
block is replaced by the implementation placeholder, because the source
condition len(output) - code_block_start > 20 also counts the opening
marker line. -/
theorem c3_twenty_line_body_removed :
    c3body.length = 20 ∧ cleanLines c3doc = [implPlaceholder] := by
  decide

/-- Claim C3 (amended): for a complete recognized fence with plain body
surrounded by plain lines, the block is preserved verbatim whenever the
body has at most 19 lines (regardless of pattern matches), and it collapses
to the single implementation placeholder exactly when the body has at least
20 lines and some pattern matches the joined body: when at least 20 lines
but no pattern matches, the block is also preserved verbatim. -/
theorem c3_fence_threshold :
    ∀ (pre body post : List Line) (o c : Line),
      pre.all plainLine = true → body.all plainLine = true → post.all plainLine = true →
      noClassHit o = true → isFenceOpen o = true →
      noClassHit c = true → isFenceOpen c = false → infOf (strL "```") c = true →
      (body.length ≤ 19 →
        cleanLines (pre ++ o :: (body ++ c :: post)) = pre ++ o :: (body ++ c :: post)) ∧
      (20 ≤ body.length → hasImplB (joinL body) = true →
        cleanLines (pre ++ o :: (body ++ c :: post)) = pre ++ implPlaceholder :: post) ∧
      (hasImplB (joinL body) = false →
        cleanLines (pre ++ o :: (body ++ c :: post)) = pre ++ o :: (body ++ c :: post)) := by
  intro pre body post o c hpre hbody hpost ho1 ho2 hc1 hc2 hc3
  refine ⟨?_, ?_, ?_⟩
  · intro hlen
    rw [fence_char pre body post o c hpre hbody hpost ho1 ho2 hc1 hc2 hc3]
    have hd : decide (20 ≤ body.length) = false := by
      simp only [decide_eq_false_iff_not]; omega
    rw [hd, Bool.and_false]
    simp
  · intro hlen hImpl
    rw [fence_char pre body post o c hpre hbody hpost ho1 ho2 hc1 hc2 hc3]
    have hd : decide (20 ≤ body.length) = true := by simp [hlen]
    rw [hd, hImpl]
    simp
  · intro hImpl
    rw [fence_char pre body post o c hpre hbody hpost ho1 ho2 hc1 hc2 hc3]
    rw [hImpl, Bool.false_and]
    simp

def c3w : List Line :=
  [strL "A\n", strL "```csharp\n", strL "    throw new Ex();\n", strL "```\n", strL "B\n"]

/-- Witness for c3_fence_threshold: a one-line body matching a pattern is
preserved verbatim because it is under the threshold. -/
theorem c3_fence_threshold_w : cleanLines c3w = c3w :=
  (c3_fence_threshold [strL "A\n"] [strL "    throw new Ex();\n"] [strL "B\n"]
    (strL "```csharp\n") (strL "```\n") (by decide) (by decide) (by decide) (by decide)
    (by decide) (by decide) (by decide) (by decide)).1 (by decide)

def c4cex : List Line :=
  [strL "```csharp\n", strL "u\n", strL "public class PerformanceMonitor \x7b\n",
    strL "\x7d\n", strL "v\n", strL "```\n"]

/-- Claim C4, refuted at a fence that contains a removal-set class
declaration: the resulting fence in the output is partially edited — some
of its lines survive verbatim while the declaration span is replaced in
place — so the output is neither the verbatim fence nor a single
placeholder line. -/
theorem c4_fence_not_atomic_with_class_hit :
    cleanLines c4cex =
      [strL "```csharp\n", strL "u\n", classPlaceholder (strL "PerformanceMonitor"),
        strL "public class PerformanceMonitor \x7b\n", strL "```\n"] ∧
      cleanLines c4cex ≠ c4cex ∧ (cleanLines c4cex).length ≠ 1 := by
  decide

/-- Claim C4 (amended): a complete recognized fence none of whose lines
matches a removal-set class declaration is handled atomically — the output
either keeps the whole fence verbatim or replaces it (markers and body) by
exactly one placeholder line. -/
theorem c4_fence_atomic_without_class_hit :
    ∀ (pre body post : List Line) (o c : Line),
      pre.all plainLine = true → body.all plainLine = true → post.all plainLine = true →
      noClassHit o = true → isFenceOpen o = true →
      noClassHit c = true → isFenceOpen c = false → infOf (strL "```") c = true →
      cleanLines (pre ++ o :: (body ++ c :: post)) = pre ++ o :: (body ++ c :: post) ∨
        cleanLines (pre ++ o :: (body ++ c :: post)) = pre ++ implPlaceholder :: post := by
  intro pre body post o c hpre hbody hpost ho1 ho2 hc1 hc2 hc3
  rw [fence_char pre body post o c hpre hbody hpost ho1 ho2 hc1 hc2 hc3]
  cases hI : hasImplB (joinL body) && decide (20 ≤ body.length) with
  | true =>
    right
    simp
  | false =>
    left
    simp

def c4w : List Line := [strL "```cs\n", strL "x\n", strL "```\n"]

/-- Witness for c4_fence_atomic_without_class_hit at a small concrete
fence. -/
theorem c4_fence_atomic_without_class_hit_w :
    cleanLines c4w = c4w ∨ cleanLines c4w = [implPlaceholder] :=
  c4_fence_atomic_without_class_hit [] [strL "x\n"] [] (strL "```cs\n") (strL "```\n")
    (by decide) (by decide) (by decide) (by decide) (by decide) (by decide) (by decide)
    (by decide)

/-- Claim C7: the filter is idempotent on any document whose filtered
output contains no remaining removal-set class declaration and no fence
that qualifies for removal: running the pass again returns the output
unchanged. -/
theorem c7_idempotent_on_clean_output :
    ∀ (doc : List Line),
      (cleanLines doc).all noClassHit = true →
      fencesOk (cleanLines doc) = true →
      cleanLines (cleanLines doc) = cleanLines doc := by
  intro doc h1 h2
  have h3 := idem_aux (cleanLines doc) [] false (-1) [] h1 h2
    (fun hc => absurd hc (by simp))
  rw [List.nil_append] at h3
  exact h3

def c7w : List Line := [strL "hello\n", strL "world\n"]

/-- Witness for c7_idempotent_on_clean_output on a small document. -/
theorem c7_idempotent_on_clean_output_w :
    cleanLines (cleanLines c7w) = cleanLines c7w :=
  c7_idempotent_on_clean_output c7w (by decide) (by decide)

/-- Claim C8: the backup file receives exactly the original content, the
original path is left untouched, and no path other than path ++ .backup
and path ++ .cleaned is written. -/
theorem c8_backup_and_frame :
    ∀ (fs : List Char → List Char) (p : List Char),
      mainRun fs p (p ++ strL ".backup") = fs p ∧
      mainRun fs p p = fs p ∧
      ∀ q : List Char, q ≠ p ++ strL ".backup" → q ≠ p ++ strL ".cleaned" →
        mainRun fs p q = fs q := by
  intro fs p
  have hlb : (strL ".backup").length = 7 := by decide
  have hlc : (strL ".cleaned").length = 8 := by decide
  have hbc : p ++ strL ".backup" ≠ p ++ strL ".cleaned" := by
    intro h
    exact absurd (List.append_cancel_left h) (by decide)
  have hpb : p ≠ p ++ strL ".backup" := by
    intro h
    have h2 := congrArg List.length h
    rw [List.length_append] at h2
    omega
  have hpc : p ≠ p ++ strL ".cleaned" := by
    intro h
    have h2 := congrArg List.length h
    rw [List.length_append] at h2
    omega
  refine ⟨?_, ?_, ?_⟩
  · simp [mainRun, writeFS, hbc]
  · simp [mainRun, writeFS, hpb, hpc]
  · intro q hq1 hq2
    simp [mainRun, writeFS, hq1, hq2]

def c8fs : List Char → List Char := fun _ => []

/-- Witness for c8_backup_and_frame at a concrete path and file system. -/
theorem c8_backup_and_frame_w :
    mainRun c8fs (strL "doc.md") (strL "doc.md" ++ strL ".backup") = c8fs (strL "doc.md") ∧
      mainRun c8fs (strL "doc.md") (strL "doc.md") = c8fs (strL "doc.md") ∧
      mainRun c8fs (strL "doc.md") (strL "other") = c8fs (strL "other") :=
  ⟨(c8_backup_and_frame c8fs (strL "doc.md")).1,
    (c8_backup_and_frame c8fs (strL "doc.md")).2.1,
    (c8_backup_and_frame c8fs (strL "doc.md")).2.2 (strL "other") (by decide) (by decide)⟩
